import Mathlib

/-!
Verification of the Homely hidden-price discovery tool (`app.py`).

The development shallowly embeds the price-discovery core:

* `check_property_in_price_range` — the oracle client.  Its network layer is
  abstracted by a function `pages : Nat → PageResponse` giving, for each page
  index, either a transport fault (timeout, connection error, non-2xx status,
  JSON decode error — all of which the source handles identically by sleeping
  and continuing the loop) or the list of listings of that page, each listing
  reduced to its extracted display-address text (`none` when no address field
  is present).  A `200` response whose body has neither recognised key leaves
  `listings = None` in the source, which behaves exactly like an empty listing
  list (both `break`), so both are modelled by `ok []`.
* `refine_to_10k_window` — the continuous bisection refiner.
* `binary_search_price_range` — the bracket search / discovery driver; the
  oracle-client call is abstracted as `oracle : Int → Int → Bool` (min, max).
* the batch loop of `main` over CSV rows.

Python `//` is floor division, embedded as `Int.fdiv`.
-/

/-- Transport-level outcome of one page request, as discriminated by the
source's page loop: a fault (timeout / connection error / non-2xx status /
malformed JSON body) is slept over and the loop continues; otherwise the page
yields a list of listings, each reduced to its extracted address text. -/
inductive PageResponse where
  | fault : PageResponse
  | ok : List (Option String) → PageResponse
deriving DecidableEq

/-- Python's substring test `t in s` on the character sequences. -/
def isSubstr (t s : String) : Bool :=
  decide (t.toList <:+: s.toList)

/-- One listing of a page: extract the address text; skip falsy (absent or
empty) addresses; otherwise normalise (`.lower().strip()`) and test the
already-normalised target as a substring. -/
def matchListing (tn : String) : Option String → Bool
  | none => false
  | some a => if a = "" then false else isSubstr tn (a.toLower.trim)

/-- Whether a page response contains a listing matching the normalised
target. -/
def pageMatches (tn : String) : PageResponse → Bool
  | PageResponse.fault => false
  | PageResponse.ok listings => listings.any (matchListing tn)

/-- Whether a page response is a successful page with zero listings — the
source's `break` signal (`listings is None or len(listings) == 0`). -/
def isEmptyOk : PageResponse → Bool
  | PageResponse.ok [] => true
  | _ => false

/-- The page loop of `check_property_in_price_range`: faults are skipped, an
empty successful page breaks with `False`, a match returns `True`, otherwise
the next page is tried; `False` once pages are exhausted. -/
def scanPages (tn : String) : List PageResponse → Bool
  | [] => false
  | PageResponse.fault :: rest => scanPages tn rest
  | PageResponse.ok listings :: rest =>
    if listings.isEmpty then false
    else if listings.any (matchListing tn) then true
    else scanPages tn rest

/-- Page budget `(max_results + results_per_page - 1) // results_per_page`
with `results_per_page = 25`. -/
def pagesToCheck (max_results : Nat) : Nat :=
  (max_results + 25 - 1) / 25

/-- Embedding of `check_property_in_price_range`: scan pages `0, 1, …, pages_to_check - 1`
for a listing whose normalised address contains the normalised target. -/
def check_property_in_price_range (target_address : String)
    (pages : Nat → PageResponse) (max_results : Nat) : Bool :=
  scanPages (target_address.toLower.trim) ((List.range (pagesToCheck max_results)).map pages)

/-- The `while hi - lo > 10000` loop of `refine_to_10k_window`, carrying the
`queries_made` counter; returns the terminal `(lo, hi)` and the counter. -/
def refineLoop (oracle : Int → Int → Bool) (lo hi : Int) (q : Nat) : Int × Int × Nat :=
  if h : hi - lo > 10000 then
    let mid := Int.fdiv (lo + hi) 2
    if oracle lo mid then refineLoop oracle lo mid (q + 1)
    else refineLoop oracle (mid + 1) hi (q + 1)
  else (lo, hi, q)
termination_by (hi - lo).toNat
decreasing_by
  all_goals
    have h2 : ∀ a : Int, Int.fdiv a 2 = a / 2 := fun a => Int.fdiv_eq_ediv a (by omega)
    simp only [h2]
    omega

/-- Result record of `refine_to_10k_window`. -/
structure RefineResult where
  min_price : Int
  max_price : Int
  bracket_width : Int
  queries_made : Nat
deriving DecidableEq

/-- Embedding of `refine_to_10k_window`: bisect `[min_price, max_price]` probing the low
half `[lo, mid]`, then snap the midpoint of the terminal interval down to a
multiple of 10000. -/
def refine_to_10k_window (oracle : Int → Int → Bool) (min_price max_price : Int) :
    RefineResult :=
  let r := refineLoop oracle min_price max_price 0
  let lo := r.1
  let hi := r.2.1
  let centre := Int.fdiv (lo + hi) 2
  let low_band := (Int.fdiv centre 10000) * 10000
  let high_band := low_band + 10000
  { min_price := low_band, max_price := high_band,
    bracket_width := high_band - low_band, queries_made := r.2.2 }

/-- The fixed price ladder `PRICE_POINTS` (39 strictly ascending values). -/
def PRICE_POINTS : List Int := [
  200000, 250000, 300000, 350000, 400000, 450000, 500000, 550000, 600000, 700000,
  750000, 800000, 850000, 900000, 950000, 1000000, 1100000, 1200000, 1300000, 1400000,
  1500000, 1600000, 1700000, 1800000, 1900000, 2000000, 2250000, 2500000, 2750000, 3000000,
  3500000, 4000000, 4500000, 5000000, 6000000, 7000000, 8000000, 9000000, 10000000]

/-- The lower-bound index loop of `binary_search_price_range`: on a positive
answer record `mid` and continue right, otherwise continue left; carries the
`queries_made` counter.  `found i` stands for
`check_property_in_price_range(target, price_points[i], max_possible, …)`. -/
def lowerLoop (found : Int → Bool) (lo hi best : Int) (q : Nat) : Int × Nat :=
  if h : lo ≤ hi then
    let mid := Int.fdiv (lo + hi) 2
    if found mid then lowerLoop found (mid + 1) hi mid (q + 1)
    else lowerLoop found lo (mid - 1) best (q + 1)
  else (best, q)
termination_by (hi + 1 - lo).toNat
decreasing_by
  all_goals
    have h2 : ∀ a : Int, Int.fdiv a 2 = a / 2 := fun a => Int.fdiv_eq_ediv a (by omega)
    simp only [h2]
    omega

/-- The upper-bound index loop of `binary_search_price_range`: on a positive
answer record `mid` and continue left, otherwise continue right.  `found i`
stands for `check_property_in_price_range(target, min_possible,
price_points[i], …)`. -/
def upperLoop (found : Int → Bool) (lo hi best : Int) (q : Nat) : Int × Nat :=
  if h : lo ≤ hi then
    let mid := Int.fdiv (lo + hi) 2
    if found mid then upperLoop found lo (mid - 1) mid (q + 1)
    else upperLoop found (mid + 1) hi best (q + 1)
  else (best, q)
termination_by (hi + 1 - lo).toNat
decreasing_by
  all_goals
    have h2 : ∀ a : Int, Int.fdiv a 2 = a / 2 := fun a => Int.fdiv_eq_ediv a (by omega)
    simp only [h2]
    omega

/-- The result dictionary of `binary_search_price_range`.  A key present in
the returned Python dict is a `some` field; a key absent from it is `none`
(the not-found dict carries only `found`, `message`, `suburb`, `address`). -/
structure SearchResult where
  found : Bool
  message : Option String := none
  exact : Option Bool := none
  price : Option Int := none
  min_price : Option Int := none
  max_price : Option Int := none
  bracket_width : Option Int := none
  queries_made : Option Nat := none
  address : String
  suburb : String
deriving DecidableEq

/-- Embedding of `binary_search_price_range`: existence check over the full ladder span,
two index binary searches, then optional 10K refinement.  The oracle-client
call `check_property_in_price_range(target, min, max, …)` is abstracted as
`oracle min max`. -/
def binary_search_price_range (oracle : Int → Int → Bool) (price_points : List Int)
    (find_exact : Bool) (target_address suburb_name : String) : SearchResult :=
  let min_possible := price_points.getD 0 0
  let max_possible := price_points.getD (price_points.length - 1) 0
  if oracle min_possible max_possible = false then
    { found := false,
      message := some "Property not found in database or filters are incorrect",
      address := target_address, suburb := suburb_name }
  else
    let n : Int := (price_points.length : Int)
    let lb := lowerLoop (fun i => oracle (price_points.getD i.toNat 0) max_possible)
      0 (n - 1) 0 1
    let lower_bound := price_points.getD lb.1.toNat 0
    let ub := upperLoop (fun i => oracle min_possible (price_points.getD i.toNat 0))
      0 (n - 1) (n - 1) lb.2
    let upper_bound := price_points.getD ub.1.toNat 0
    let final_min := lower_bound
    let final_max := upper_bound
    if find_exact && (final_max - final_min > 10000) then
      let refine_result := refine_to_10k_window oracle final_min final_max
      { found := true, exact := some true, price := none,
        min_price := some refine_result.min_price,
        max_price := some refine_result.max_price,
        bracket_width := some refine_result.bracket_width,
        queries_made := some (ub.2 + refine_result.queries_made),
        address := target_address, suburb := suburb_name }
    else
      { found := true, exact := some false, price := none,
        min_price := some final_min, max_price := some final_max,
        bracket_width := some (final_max - final_min),
        queries_made := some ub.2,
        address := target_address, suburb := suburb_name }

/-- The final value of the local `queries_made` counter of
`binary_search_price_range`, i.e. the number of oracle-client calls the
function makes.  On the not-found path the counter has value 1 (the single
existence check), a value the returned dict does not include. -/
def binary_search_calls (oracle : Int → Int → Bool) (price_points : List Int)
    (find_exact : Bool) : Nat :=
  let min_possible := price_points.getD 0 0
  let max_possible := price_points.getD (price_points.length - 1) 0
  if oracle min_possible max_possible = false then 1
  else
    let n : Int := (price_points.length : Int)
    let lb := lowerLoop (fun i => oracle (price_points.getD i.toNat 0) max_possible)
      0 (n - 1) 0 1
    let lower_bound := price_points.getD lb.1.toNat 0
    let ub := upperLoop (fun i => oracle min_possible (price_points.getD i.toNat 0))
      0 (n - 1) (n - 1) lb.2
    let upper_bound := price_points.getD ub.1.toNat 0
    if find_exact && (upper_bound - lower_bound > 10000) then
      ub.2 + (refine_to_10k_window oracle lower_bound upper_bound).queries_made
    else ub.2

/-- One CSV row of the batch mode: an address and the three optional filter
counts. -/
structure BatchRow where
  address : String
  bedrooms : Option Int := none
  bathrooms : Option Int := none
  carspaces : Option Int := none
deriving DecidableEq

/-- The batch loop of `main`: one `binary_search_price_range` invocation per
row, strictly in input order, results appended in order.  `oracleOf row`
abstracts the oracle-client answers for that row's address and filters. -/
def runBatch (oracleOf : BatchRow → Int → Int → Bool) (price_points : List Int)
    (find_exact : Bool) (suburb_name : String) (rows : List BatchRow) : List SearchResult :=
  rows.map (fun row =>
    binary_search_price_range (oracleOf row) price_points find_exact row.address suburb_name)

/-- Summary statistic `found_count = sum(1 for r in results if r.get('found'))`. -/
def found_count (results : List SearchResult) : Nat :=
  results.countP (fun r => r.found)

/-- Summary statistic `total_queries = sum(r.get('queries_made', 0) for r in results)`. -/
def total_queries (results : List SearchResult) : Nat :=
  (results.map (fun r => r.queries_made.getD 0)).sum

/-- The simulated hidden-price oracle of the spec's testable properties:
true iff the fixed hidden price `p` lies in `[min, max]`. -/
def hiddenOracle (p : Int) : Int → Int → Bool :=
  fun min max => decide (min ≤ p ∧ p ≤ max)

/-- The lower-bound binary search of `binary_search_price_range` (index and
accumulated query count, the count starting at 1 for the existence check). -/
def lowerIndex (oracle : Int → Int → Bool) (pts : List Int) : Int × Nat :=
  lowerLoop (fun i => oracle (pts.getD i.toNat 0) (pts.getD (pts.length - 1) 0))
    0 ((pts.length : Int) - 1) 0 1

/-- The upper-bound binary search of `binary_search_price_range`, run after
the lower-bound search (so its count continues from the latter's). -/
def upperIndex (oracle : Int → Int → Bool) (pts : List Int) : Int × Nat :=
  upperLoop (fun i => oracle (pts.getD 0 0) (pts.getD i.toNat 0))
    0 ((pts.length : Int) - 1) ((pts.length : Int) - 1) (lowerIndex oracle pts).2

/-- The found-path tail of `binary_search_price_range`, factored out. -/
def foundResult (oracle : Int → Int → Bool) (pts : List Int) (find_exact : Bool)
    (target_address suburb_name : String) : SearchResult :=
  let final_min := pts.getD (lowerIndex oracle pts).1.toNat 0
  let final_max := pts.getD (upperIndex oracle pts).1.toNat 0
  if find_exact && (final_max - final_min > 10000) then
    { found := true, exact := some true, price := none,
      min_price := some (refine_to_10k_window oracle final_min final_max).min_price,
      max_price := some (refine_to_10k_window oracle final_min final_max).max_price,
      bracket_width := some (refine_to_10k_window oracle final_min final_max).bracket_width,
      queries_made := some ((upperIndex oracle pts).2 +
        (refine_to_10k_window oracle final_min final_max).queries_made),
      address := target_address, suburb := suburb_name }
  else
    { found := true, exact := some false, price := none,
      min_price := some final_min, max_price := some final_max,
      bracket_width := some (final_max - final_min),
      queries_made := some (upperIndex oracle pts).2,
      address := target_address, suburb := suburb_name }

/-- Minimum possible iteration count of a `while lo <= hi` binary-search loop
over an index interval of the given size. -/
def bsMin : Nat → Nat
  | 0 => 0
  | e + 1 => bsMin (e / 2) + 1
termination_by e => e
decreasing_by omega

/-- Maximum possible iteration count of a `while lo <= hi` binary-search loop
over an index interval of the given size. -/
def bsMax : Nat → Nat
  | 0 => 0
  | e + 1 => bsMax ((e + 1) / 2) + 1
termination_by e => e
decreasing_by omega

/-! Helper equations -/

/-- Python floor division by 2 agrees with Euclidean division. -/
theorem fdiv2_eq (a : Int) : Int.fdiv a 2 = a / 2 :=
  Int.fdiv_eq_ediv a (by omega)

/-- Python floor division by 10000 agrees with Euclidean division. -/
theorem fdiv10000_eq (a : Int) : Int.fdiv a 10000 = a / 10000 :=
  Int.fdiv_eq_ediv a (by omega)

theorem refine_queries_made_eq (oracle : Int → Int → Bool) (lo hi : Int) :
    (refine_to_10k_window oracle lo hi).queries_made = (refineLoop oracle lo hi 0).2.2 := rfl

theorem refine_min_price_eq (oracle : Int → Int → Bool) (lo hi : Int) :
    (refine_to_10k_window oracle lo hi).min_price =
      Int.fdiv (Int.fdiv ((refineLoop oracle lo hi 0).1 +
        (refineLoop oracle lo hi 0).2.1) 2) 10000 * 10000 := rfl


/-! Basic loop equations -/

/-- Terminated `refineLoop`. -/
theorem refineLoop_stop (oracle : Int → Int → Bool) (lo hi : Int) (q : Nat)
    (h : ¬ (10000 < hi - lo)) : refineLoop oracle lo hi q = (lo, hi, q) := by
  unfold refineLoop
  rw [dif_neg h]

/-- One iteration of `refineLoop`. -/
theorem refineLoop_step (oracle : Int → Int → Bool) (lo hi : Int) (q : Nat)
    (h : 10000 < hi - lo) :
    refineLoop oracle lo hi q =
      if oracle lo (Int.fdiv (lo + hi) 2) then
        refineLoop oracle lo (Int.fdiv (lo + hi) 2) (q + 1)
      else refineLoop oracle (Int.fdiv (lo + hi) 2 + 1) hi (q + 1) := by
  conv_lhs => rw [refineLoop]
  rw [dif_pos h]

/-- Terminated `lowerLoop`. -/
theorem lowerLoop_stop (found : Int → Bool) (lo hi best : Int) (q : Nat)
    (h : ¬ lo ≤ hi) : lowerLoop found lo hi best q = (best, q) := by
  unfold lowerLoop
  rw [dif_neg h]

/-- One iteration of `lowerLoop`. -/
theorem lowerLoop_step (found : Int → Bool) (lo hi best : Int) (q : Nat)
    (h : lo ≤ hi) :
    lowerLoop found lo hi best q =
      if found (Int.fdiv (lo + hi) 2) then
        lowerLoop found (Int.fdiv (lo + hi) 2 + 1) hi (Int.fdiv (lo + hi) 2) (q + 1)
      else lowerLoop found lo (Int.fdiv (lo + hi) 2 - 1) best (q + 1) := by
  conv_lhs => rw [lowerLoop]
  rw [dif_pos h]

/-- Terminated `upperLoop`. -/
theorem upperLoop_stop (found : Int → Bool) (lo hi best : Int) (q : Nat)
    (h : ¬ lo ≤ hi) : upperLoop found lo hi best q = (best, q) := by
  unfold upperLoop
  rw [dif_neg h]

/-- One iteration of `upperLoop`. -/
theorem upperLoop_step (found : Int → Bool) (lo hi best : Int) (q : Nat)
    (h : lo ≤ hi) :
    upperLoop found lo hi best q =
      if found (Int.fdiv (lo + hi) 2) then
        upperLoop found lo (Int.fdiv (lo + hi) 2 - 1) (Int.fdiv (lo + hi) 2) (q + 1)
      else upperLoop found (Int.fdiv (lo + hi) 2 + 1) hi best (q + 1) := by
  conv_lhs => rw [upperLoop]
  rw [dif_pos h]

/-! Window refiner: invariant and claims -/

/-- Against a hidden-price oracle, `refineLoop` keeps the hidden price inside
the interval and terminates with width at most 10000. -/
theorem refineLoop_hidden (p lo hi : Int) (q : Nat) (hlo : lo ≤ p) (hhi : p ≤ hi) :
    (refineLoop (hiddenOracle p) lo hi q).1 ≤ p ∧
    p ≤ (refineLoop (hiddenOracle p) lo hi q).2.1 ∧
    (refineLoop (hiddenOracle p) lo hi q).2.1 - (refineLoop (hiddenOracle p) lo hi q).1 ≤ 10000 := by
  by_cases h : 10000 < hi - lo
  · rw [refineLoop_step _ _ _ _ h]
    by_cases ho : hiddenOracle p lo (Int.fdiv (lo + hi) 2) = true
    · rw [if_pos ho]
      have hp : p ≤ Int.fdiv (lo + hi) 2 := by
        have := of_decide_eq_true ho
        exact this.2
      exact refineLoop_hidden p lo (Int.fdiv (lo + hi) 2) (q + 1) hlo hp
    · rw [if_neg ho]
      have hp : Int.fdiv (lo + hi) 2 + 1 ≤ p := by
        have : ¬ (lo ≤ p ∧ p ≤ Int.fdiv (lo + hi) 2) := fun hc => ho (decide_eq_true hc)
        omega
      exact refineLoop_hidden p (Int.fdiv (lo + hi) 2 + 1) hi (q + 1) hp hhi
  · rw [refineLoop_stop _ _ _ _ h]
    exact ⟨hlo, hhi, show hi - lo ≤ 10000 by omega⟩
termination_by (hi - lo).toNat
decreasing_by
  · simp only [fdiv2_eq]; omega
  · simp only [fdiv2_eq]; omega

/-- C10: for every pair of integer inputs and every oracle, each iteration of
the `refine_to_10k_window` loop entered with `hi - lo > 10000` unfolds to one
of the two recursive calls, and both strictly decrease `hi - lo` — the loop
terminates (the total function `refineLoop` satisfies exactly the loop's
defining equation). -/
theorem refine_loop_terminates (oracle : Int → Int → Bool) (lo hi : Int) (q : Nat)
    (h : 10000 < hi - lo) :
    refineLoop oracle lo hi q =
      (if oracle lo (Int.fdiv (lo + hi) 2) then
        refineLoop oracle lo (Int.fdiv (lo + hi) 2) (q + 1)
      else refineLoop oracle (Int.fdiv (lo + hi) 2 + 1) hi (q + 1)) ∧
    Int.fdiv (lo + hi) 2 - lo < hi - lo ∧
    hi - (Int.fdiv (lo + hi) 2 + 1) < hi - lo := by
  refine ⟨refineLoop_step oracle lo hi q h, ?_, ?_⟩ <;>
    simp only [fdiv2_eq] <;> omega

/-- Witness for `refine_loop_terminates` at a concrete input. -/
theorem refine_loop_terminates_witness :
    refineLoop (fun _ _ => false) 0 20001 0 =
      (if (fun _ _ => false) 0 (Int.fdiv (0 + 20001) 2) then
        refineLoop (fun _ _ => false) 0 (Int.fdiv (0 + 20001) 2) (0 + 1)
      else refineLoop (fun _ _ => false) (Int.fdiv (0 + 20001) 2 + 1) 20001 (0 + 1)) ∧
    Int.fdiv (0 + 20001) 2 - 0 < 20001 - 0 ∧
    20001 - (Int.fdiv (0 + 20001) 2 + 1) < 20001 - 0 :=
  refine_loop_terminates (fun _ _ => false) 0 20001 0 (by decide)



theorem refine_band_shape (p lo0 hi0 : Int) (hlo : lo0 ≤ p) (hhi : p ≤ hi0) :
    (refine_to_10k_window (hiddenOracle p) lo0 hi0).max_price
      = (refine_to_10k_window (hiddenOracle p) lo0 hi0).min_price + 10000 ∧
    (refine_to_10k_window (hiddenOracle p) lo0 hi0).bracket_width = 10000 ∧
    10000 ∣ (refine_to_10k_window (hiddenOracle p) lo0 hi0).min_price ∧
    (refine_to_10k_window (hiddenOracle p) lo0 hi0).min_price - 5000 ≤ p ∧
    p ≤ (refine_to_10k_window (hiddenOracle p) lo0 hi0).min_price + 14999 := by
  obtain ⟨h1, h2, h3⟩ := refineLoop_hidden p lo0 hi0 0 hlo hhi
  set L := (refineLoop (hiddenOracle p) lo0 hi0 0).1 with hL
  set H := (refineLoop (hiddenOracle p) lo0 hi0 0).2.1 with hH
  have e : refine_to_10k_window (hiddenOracle p) lo0 hi0 =
      { min_price := Int.fdiv (Int.fdiv (L + H) 2) 10000 * 10000,
        max_price := Int.fdiv (Int.fdiv (L + H) 2) 10000 * 10000 + 10000,
        bracket_width := Int.fdiv (Int.fdiv (L + H) 2) 10000 * 10000 + 10000
          - Int.fdiv (Int.fdiv (L + H) 2) 10000 * 10000,
        queries_made := (refineLoop (hiddenOracle p) lo0 hi0 0).2.2 } := rfl
  rw [e]
  refine ⟨rfl, by ring, dvd_mul_left 10000 _, ?_, ?_⟩ <;>
  · simp only [fdiv2_eq, fdiv10000_eq]
    omega

/-- C3 witness for the amended statement, at the spec's scenario bracket. -/
theorem refine_band_shape_witness :
    (refine_to_10k_window (hiddenOracle 1150000) 1100000 1200000).max_price
      = (refine_to_10k_window (hiddenOracle 1150000) 1100000 1200000).min_price + 10000 ∧
    (refine_to_10k_window (hiddenOracle 1150000) 1100000 1200000).bracket_width = 10000 ∧
    10000 ∣ (refine_to_10k_window (hiddenOracle 1150000) 1100000 1200000).min_price ∧
    (refine_to_10k_window (hiddenOracle 1150000) 1100000 1200000).min_price - 5000 ≤ 1150000 ∧
    (1150000 : Int) ≤ (refine_to_10k_window (hiddenOracle 1150000) 1100000 1200000).min_price + 14999 :=
  refine_band_shape 1150000 1100000 1200000 (by decide) (by decide)

/-- C3 counterexample: with hidden price 95000 inside the starting bracket
`[95000, 105000]`, the returned band starts at 100000, so the claimed
`b ≤ p < b + 10000` fails. -/
theorem refine_band_not_containing :
    ((95000 : Int) ≤ 95000 ∧ (95000 : Int) ≤ 105000) ∧
    (refine_to_10k_window (hiddenOracle 95000) 95000 105000).min_price = 100000 ∧
    ¬ ((100000 : Int) ≤ 95000) := by
  have s : refineLoop (hiddenOracle 95000) 95000 105000 0 = (95000, 105000, 0) :=
    refineLoop_stop _ _ _ _ (by decide)
  rw [refine_min_price_eq, s]
  refine ⟨⟨by decide, by decide⟩, by decide, by decide⟩

/-- The query counter of `refineLoop` never decreases. -/
theorem refineLoop_count_ge (oracle : Int → Int → Bool) (lo hi : Int) (q : Nat) :
    q ≤ (refineLoop oracle lo hi q).2.2 := by
  by_cases h : 10000 < hi - lo
  · rw [refineLoop_step _ _ _ _ h]
    split
    · exact le_trans (Nat.le_succ q) (refineLoop_count_ge oracle lo (Int.fdiv (lo + hi) 2) (q + 1))
    · exact le_trans (Nat.le_succ q) (refineLoop_count_ge oracle (Int.fdiv (lo + hi) 2 + 1) hi (q + 1))
  · rw [refineLoop_stop _ _ _ _ h]
termination_by (hi - lo).toNat
decreasing_by
  · simp only [fdiv2_eq]; omega
  · simp only [fdiv2_eq]; omega

/-- Each `refineLoop` call at most halves the width, so `k` halvings cover a
width of `10000 * 2^k`. -/
theorem refineLoop_count_le (oracle : Int → Int → Bool) (k : Nat) :
    ∀ (lo hi : Int) (q : Nat), hi - lo ≤ 10000 * 2 ^ k →
      (refineLoop oracle lo hi q).2.2 ≤ q + k := by
  induction k with
  | zero =>
    intro lo hi q hw
    rw [refineLoop_stop _ _ _ _ (by simp at hw; omega)]
    exact Nat.le_refl q
  | succ k ih =>
    intro lo hi q hw
    by_cases h : 10000 < hi - lo
    · rw [refineLoop_step _ _ _ _ h]
      have hp : (0 : Int) < 2 ^ k := pow_pos (by norm_num) k
      have hw' : hi - lo ≤ 20000 * 2 ^ k := by
        have : (10000 : Int) * 2 ^ (k + 1) = 20000 * 2 ^ k := by ring
        rw [this] at hw; exact hw
      split
      · refine le_trans (ih _ _ (q + 1) ?_) (by omega)
        simp only [fdiv2_eq]; omega
      · refine le_trans (ih _ _ (q + 1) ?_) (by omega)
        simp only [fdiv2_eq]; omega
    · rw [refineLoop_stop _ _ _ _ h]
      show q ≤ q + (k + 1)
      omega

/-- A width above `10003 * 2^k - 2` forces more than `k` `refineLoop`
iterations, whatever the oracle answers. -/
theorem refineLoop_count_gt (oracle : Int → Int → Bool) (k : Nat) :
    ∀ (lo hi : Int) (q : Nat), 10003 * 2 ^ k - 2 ≤ hi - lo →
      q + k < (refineLoop oracle lo hi q).2.2 := by
  induction k with
  | zero =>
    intro lo hi q hw
    have h : 10000 < hi - lo := by simp at hw; omega
    rw [refineLoop_step _ _ _ _ h]
    split
    · exact lt_of_lt_of_le (by omega) (refineLoop_count_ge oracle _ _ (q + 1))
    · exact lt_of_lt_of_le (by omega) (refineLoop_count_ge oracle _ _ (q + 1))
  | succ k ih =>
    intro lo hi q hw
    have hp : (0 : Int) < 2 ^ k := pow_pos (by norm_num) k
    have hw' : 20006 * 2 ^ k - 2 ≤ hi - lo := by
      have : (10003 : Int) * 2 ^ (k + 1) = 20006 * 2 ^ k := by ring
      rw [this] at hw; exact hw
    have h : 10000 < hi - lo := by omega
    rw [refineLoop_step _ _ _ _ h]
    split
    · have := ih lo (Int.fdiv (lo + hi) 2) (q + 1) (by simp only [fdiv2_eq]; omega)
      omega
    · have := ih (Int.fdiv (lo + hi) 2 + 1) hi (q + 1) (by simp only [fdiv2_eq]; omega)
      omega

/-- C7 (amended): the refiner's query count is bounded, for every oracle, by
the two-sided halving bounds; it is not the exact function
`ceil(log2((hi0-lo0)/10000))` of the width alone. -/
theorem refine_queries_bounds (oracle : Int → Int → Bool) (lo0 hi0 : Int) (k1 k2 : Nat)
    (h1 : hi0 - lo0 ≤ 10000 * 2 ^ k1) (h2 : 10003 * 2 ^ k2 - 2 ≤ hi0 - lo0) :
    k2 < (refine_to_10k_window oracle lo0 hi0).queries_made ∧
    (refine_to_10k_window oracle lo0 hi0).queries_made ≤ k1 := by
  rw [refine_queries_made_eq]
  exact ⟨by simpa using refineLoop_count_gt oracle k2 lo0 hi0 0 h2,
    by simpa using refineLoop_count_le oracle k1 lo0 hi0 0 h1⟩

/-- C7 witness: width 20001 gives a count strictly between 0 and 2. -/
theorem refine_queries_bounds_witness :
    0 < (refine_to_10k_window (hiddenOracle 0) 0 20001).queries_made ∧
    (refine_to_10k_window (hiddenOracle 0) 0 20001).queries_made ≤ 2 :=
  refine_queries_bounds (hiddenOracle 0) 0 20001 2 0 (by simp) (by simp)

/-- C7 counterexample: widths 20001 and 21000 (hidden price 0 inside both
brackets, widths above the tolerance) give counts 1 and 2, while
`ceil(log2(w/10000))` evaluates to 2 and 2 under real division and to 1 and 1
under floor division — neither reading matches both. -/
theorem refine_queries_not_log_formula :
    (10000 < (20001 : Int) - 0 ∧ (0 : Int) ≤ 0 ∧ (0 : Int) ≤ 20001 ∧
      (refine_to_10k_window (hiddenOracle 0) 0 20001).queries_made = 1) ∧
    (10000 < (21000 : Int) - 0 ∧ (0 : Int) ≤ 21000 ∧
      (refine_to_10k_window (hiddenOracle 0) 0 21000).queries_made = 2) := by
  have m1 : Int.fdiv (0 + 20001) 2 = 10000 := by decide
  have s1 : refineLoop (hiddenOracle 0) 0 20001 0 = (0, 10000, 1) := by
    rw [refineLoop_step _ _ _ _ (by decide), m1,
      if_pos (show hiddenOracle 0 0 10000 = true by decide)]
    exact refineLoop_stop _ _ _ _ (by decide)
  have m2 : Int.fdiv (0 + 21000) 2 = 10500 := by decide
  have m3 : Int.fdiv (0 + 10500) 2 = 5250 := by decide
  have s2 : refineLoop (hiddenOracle 0) 0 21000 0 = (0, 5250, 2) := by
    rw [refineLoop_step _ _ _ _ (by decide), m2,
      if_pos (show hiddenOracle 0 0 10500 = true by decide),
      refineLoop_step _ _ _ _ (by decide), m3,
      if_pos (show hiddenOracle 0 0 5250 = true by decide)]
    exact refineLoop_stop _ _ _ _ (by decide)
  rw [refine_queries_made_eq, refine_queries_made_eq, s1, s2]
  exact ⟨⟨by decide, by decide, by decide, rfl⟩, ⟨by decide, by decide, rfl⟩⟩

/-! Bracket search: invariants -/

/-- The loop `lowerLoop` only ever replaces `best` by an index the predicate accepted. -/
theorem lowerLoop_found_inv (f : Int → Bool) (lo hi best : Int) (q : Nat)
    (h : f best = true) : f (lowerLoop f lo hi best q).1 = true := by
  by_cases hle : lo ≤ hi
  · rw [lowerLoop_step _ _ _ _ _ hle]
    by_cases hf : f (Int.fdiv (lo + hi) 2) = true
    · rw [if_pos hf]
      exact lowerLoop_found_inv f (Int.fdiv (lo + hi) 2 + 1) hi (Int.fdiv (lo + hi) 2) (q + 1) hf
    · rw [if_neg hf]
      exact lowerLoop_found_inv f lo (Int.fdiv (lo + hi) 2 - 1) best (q + 1) h
  · rw [lowerLoop_stop _ _ _ _ _ hle]
    exact h
termination_by (hi + 1 - lo).toNat
decreasing_by
  · simp only [fdiv2_eq]; omega
  · simp only [fdiv2_eq]; omega

/-- The loop `upperLoop` only ever replaces `best` by an index the predicate accepted. -/
theorem upperLoop_found_inv (f : Int → Bool) (lo hi best : Int) (q : Nat)
    (h : f best = true) : f (upperLoop f lo hi best q).1 = true := by
  by_cases hle : lo ≤ hi
  · rw [upperLoop_step _ _ _ _ _ hle]
    by_cases hf : f (Int.fdiv (lo + hi) 2) = true
    · rw [if_pos hf]
      exact upperLoop_found_inv f lo (Int.fdiv (lo + hi) 2 - 1) (Int.fdiv (lo + hi) 2) (q + 1) hf
    · rw [if_neg hf]
      exact upperLoop_found_inv f (Int.fdiv (lo + hi) 2 + 1) hi best (q + 1) h
  · rw [upperLoop_stop _ _ _ _ _ hle]
    exact h
termination_by (hi + 1 - lo).toNat
decreasing_by
  · simp only [fdiv2_eq]; omega
  · simp only [fdiv2_eq]; omega

/-- The index returned by `lowerLoop` stays within `[0, B]` when the loop
starts there. -/
theorem lowerLoop_range (f : Int → Bool) (B lo hi best : Int) (q : Nat)
    (hlo : 0 ≤ lo) (hhi : hi ≤ B) (hb0 : 0 ≤ best) (hbB : best ≤ B) :
    0 ≤ (lowerLoop f lo hi best q).1 ∧ (lowerLoop f lo hi best q).1 ≤ B := by
  by_cases hle : lo ≤ hi
  · rw [lowerLoop_step _ _ _ _ _ hle]
    have hm0 : 0 ≤ Int.fdiv (lo + hi) 2 := by simp only [fdiv2_eq]; omega
    have hmB : Int.fdiv (lo + hi) 2 ≤ B := by simp only [fdiv2_eq]; omega
    by_cases hf : f (Int.fdiv (lo + hi) 2) = true
    · rw [if_pos hf]
      exact lowerLoop_range f B (Int.fdiv (lo + hi) 2 + 1) hi (Int.fdiv (lo + hi) 2) (q + 1)
        (by omega) hhi hm0 hmB
    · rw [if_neg hf]
      exact lowerLoop_range f B lo (Int.fdiv (lo + hi) 2 - 1) best (q + 1)
        hlo (by omega) hb0 hbB
  · rw [lowerLoop_stop _ _ _ _ _ hle]
    exact ⟨hb0, hbB⟩
termination_by (hi + 1 - lo).toNat
decreasing_by
  · simp only [fdiv2_eq]; omega
  · simp only [fdiv2_eq]; omega

/-- The index returned by `upperLoop` stays within `[0, B]` when the loop
starts there. -/
theorem upperLoop_range (f : Int → Bool) (B lo hi best : Int) (q : Nat)
    (hlo : 0 ≤ lo) (hhi : hi ≤ B) (hb0 : 0 ≤ best) (hbB : best ≤ B) :
    0 ≤ (upperLoop f lo hi best q).1 ∧ (upperLoop f lo hi best q).1 ≤ B := by
  by_cases hle : lo ≤ hi
  · rw [upperLoop_step _ _ _ _ _ hle]
    have hm0 : 0 ≤ Int.fdiv (lo + hi) 2 := by simp only [fdiv2_eq]; omega
    have hmB : Int.fdiv (lo + hi) 2 ≤ B := by simp only [fdiv2_eq]; omega
    by_cases hf : f (Int.fdiv (lo + hi) 2) = true
    · rw [if_pos hf]
      exact upperLoop_range f B lo (Int.fdiv (lo + hi) 2 - 1) (Int.fdiv (lo + hi) 2) (q + 1)
        hlo (by omega) hm0 hmB
    · rw [if_neg hf]
      exact upperLoop_range f B (Int.fdiv (lo + hi) 2 + 1) hi best (q + 1)
        (by omega) hhi hb0 hbB
  · rw [upperLoop_stop _ _ _ _ _ hle]
    exact ⟨hb0, hbB⟩
termination_by (hi + 1 - lo).toNat
decreasing_by
  · simp only [fdiv2_eq]; omega
  · simp only [fdiv2_eq]; omega

/-- When the existence check succeeds, `binary_search_price_range` is the
found-path tail. -/
theorem binary_search_found_eq (oracle : Int → Int → Bool) (pts : List Int)
    (find_exact : Bool) (addr sub : String)
    (hex : oracle (pts.getD 0 0) (pts.getD (pts.length - 1) 0) = true) :
    binary_search_price_range oracle pts find_exact addr sub =
      foundResult oracle pts find_exact addr sub := by
  simp only [binary_search_price_range, foundResult, lowerIndex, upperIndex, hex]
  rw [if_neg (show ¬ (true = false) by simp)]

/-- Element of a list by `getD` at an in-range index. -/
theorem getD_mem (l : List Int) (k : Nat) (hk : k < l.length) : l.getD k 0 ∈ l := by
  rw [List.getD_eq_getElem?_getD, List.getElem?_eq_getElem hk]
  exact List.getElem_mem hk

/-- The hidden-price oracle answers true exactly on containing ranges. -/
theorem hiddenOracle_true_iff (p a b : Int) :
    hiddenOracle p a b = true ↔ a ≤ p ∧ p ≤ b := by
  simp [hiddenOracle]

/-- C1: for every strictly ascending ladder and hidden price `p` within the
ladder span, with the oracle the pure containment predicate,
`binary_search_price_range` reports found with a bracket `[lo, hi]` whose
ends are ladder values and which contains `p`. -/
theorem bracket_search_contains (pts : List Int) (hasc : pts.Pairwise (· < ·))
    (p : Int) (addr sub : String) (hne : pts ≠ [])
    (hlo : pts.getD 0 0 ≤ p) (hhi : p ≤ pts.getD (pts.length - 1) 0) :
    ∃ lo hi q,
      binary_search_price_range (hiddenOracle p) pts false addr sub =
        { found := true, exact := some false, price := none,
          min_price := some lo, max_price := some hi,
          bracket_width := some (hi - lo), queries_made := some q,
          address := addr, suburb := sub } ∧
      lo ∈ pts ∧ hi ∈ pts ∧ lo ≤ p ∧ p ≤ hi := by
  have hex : hiddenOracle p (pts.getD 0 0) (pts.getD (pts.length - 1) 0) = true :=
    decide_eq_true ⟨hlo, hhi⟩
  have hlen : 1 ≤ pts.length := by
    cases pts with
    | nil => exact absurd rfl hne
    | cons a l => simp
  rw [binary_search_found_eq _ _ _ _ _ hex]
  rw [show foundResult (hiddenOracle p) pts false addr sub =
      { found := true, exact := some false, price := none,
        min_price := some (pts.getD (lowerIndex (hiddenOracle p) pts).1.toNat 0),
        max_price := some (pts.getD (upperIndex (hiddenOracle p) pts).1.toNat 0),
        bracket_width := some (pts.getD (upperIndex (hiddenOracle p) pts).1.toNat 0
          - pts.getD (lowerIndex (hiddenOracle p) pts).1.toNat 0),
        queries_made := some (upperIndex (hiddenOracle p) pts).2,
        address := addr, suburb := sub } from by simp [foundResult]]
  have hlb : 0 ≤ (lowerIndex (hiddenOracle p) pts).1 ∧
      (lowerIndex (hiddenOracle p) pts).1 ≤ (pts.length : Int) - 1 := by
    simp only [lowerIndex]
    exact lowerLoop_range _ _ _ _ _ _ (le_refl 0) (le_refl _) (le_refl 0) (by omega)
  have hub : 0 ≤ (upperIndex (hiddenOracle p) pts).1 ∧
      (upperIndex (hiddenOracle p) pts).1 ≤ (pts.length : Int) - 1 := by
    simp only [upperIndex]
    exact upperLoop_range _ _ _ _ _ _ (le_refl 0) (le_refl _) (by omega) (le_refl _)
  have hf0 : (fun i : Int =>
      hiddenOracle p (pts.getD i.toNat 0) (pts.getD (pts.length - 1) 0)) 0 = true := by
    show hiddenOracle p (pts.getD (0 : Int).toNat 0) (pts.getD (pts.length - 1) 0) = true
    simpa using hex
  have hfN : (fun i : Int =>
      hiddenOracle p (pts.getD 0 0) (pts.getD i.toNat 0)) ((pts.length : Int) - 1) = true := by
    show hiddenOracle p (pts.getD 0 0) (pts.getD ((pts.length : Int) - 1).toNat 0) = true
    have ht : ((pts.length : Int) - 1).toNat = pts.length - 1 := by omega
    rw [ht]
    exact hex
  have h3 : hiddenOracle p (pts.getD (lowerIndex (hiddenOracle p) pts).1.toNat 0)
      (pts.getD (pts.length - 1) 0) = true := by
    simp only [lowerIndex]
    exact lowerLoop_found_inv
      (fun i : Int => hiddenOracle p (pts.getD i.toNat 0) (pts.getD (pts.length - 1) 0))
      0 ((pts.length : Int) - 1) 0 1 hf0
  have h4 : hiddenOracle p (pts.getD 0 0)
      (pts.getD (upperIndex (hiddenOracle p) pts).1.toNat 0) = true := by
    simp only [upperIndex]
    exact upperLoop_found_inv
      (fun i : Int => hiddenOracle p (pts.getD 0 0) (pts.getD i.toNat 0))
      0 ((pts.length : Int) - 1) ((pts.length : Int) - 1)
      (lowerIndex (hiddenOracle p) pts).2 hfN
  refine ⟨_, _, _, rfl, ?_, ?_, ?_, ?_⟩
  · exact getD_mem pts _ (by omega)
  · exact getD_mem pts _ (by omega)
  · exact ((hiddenOracle_true_iff _ _ _).1 h3).1
  · exact ((hiddenOracle_true_iff _ _ _).1 h4).2

/-- C1 witness at the spec's scenario: 39-point ladder, hidden price
1,150,000. -/
theorem bracket_search_contains_witness :
    ∃ lo hi q,
      binary_search_price_range (hiddenOracle 1150000) PRICE_POINTS false
          "79 Gerrale Street, Cronulla" "Cronulla" =
        { found := true, exact := some false, price := none,
          min_price := some lo, max_price := some hi,
          bracket_width := some (hi - lo), queries_made := some q,
          address := "79 Gerrale Street, Cronulla", suburb := "Cronulla" } ∧
      lo ∈ PRICE_POINTS ∧ hi ∈ PRICE_POINTS ∧ lo ≤ 1150000 ∧ 1150000 ≤ hi :=
  bracket_search_contains PRICE_POINTS (by decide) 1150000
    "79 Gerrale Street, Cronulla" "Cronulla" (by decide) (by decide) (by decide)

/-- C4: on a found query, the driver runs the window refiner exactly when
refinement was requested and the coarse bracket is wider than 10000; then the
result carries the refined bracket, `exact = true` and the accumulated count;
otherwise it carries the coarse bracket and `exact = false`. -/
theorem discovery_driver_refinement (oracle : Int → Int → Bool) (pts : List Int)
    (find_exact : Bool) (addr sub : String)
    (hex : oracle (pts.getD 0 0) (pts.getD (pts.length - 1) 0) = true) :
    binary_search_price_range oracle pts find_exact addr sub =
      if find_exact = true ∧ pts.getD (upperIndex oracle pts).1.toNat 0 -
          pts.getD (lowerIndex oracle pts).1.toNat 0 > 10000 then
        { found := true, exact := some true, price := none,
          min_price := some (refine_to_10k_window oracle
            (pts.getD (lowerIndex oracle pts).1.toNat 0)
            (pts.getD (upperIndex oracle pts).1.toNat 0)).min_price,
          max_price := some (refine_to_10k_window oracle
            (pts.getD (lowerIndex oracle pts).1.toNat 0)
            (pts.getD (upperIndex oracle pts).1.toNat 0)).max_price,
          bracket_width := some (refine_to_10k_window oracle
            (pts.getD (lowerIndex oracle pts).1.toNat 0)
            (pts.getD (upperIndex oracle pts).1.toNat 0)).bracket_width,
          queries_made := some ((upperIndex oracle pts).2 +
            (refine_to_10k_window oracle
              (pts.getD (lowerIndex oracle pts).1.toNat 0)
              (pts.getD (upperIndex oracle pts).1.toNat 0)).queries_made),
          address := addr, suburb := sub }
      else
        { found := true, exact := some false, price := none,
          min_price := some (pts.getD (lowerIndex oracle pts).1.toNat 0),
          max_price := some (pts.getD (upperIndex oracle pts).1.toNat 0),
          bracket_width := some (pts.getD (upperIndex oracle pts).1.toNat 0 -
            pts.getD (lowerIndex oracle pts).1.toNat 0),
          queries_made := some (upperIndex oracle pts).2,
          address := addr, suburb := sub } := by
  rw [binary_search_found_eq _ _ _ _ _ hex]
  simp only [foundResult, Bool.and_eq_true, decide_eq_true_eq]

/-- C4 witness: concrete found query with refinement requested. -/
theorem discovery_driver_refinement_witness :
    binary_search_price_range (hiddenOracle 1150000) PRICE_POINTS true "a" "s" =
      if True ∧ PRICE_POINTS.getD (upperIndex (hiddenOracle 1150000) PRICE_POINTS).1.toNat 0 -
          PRICE_POINTS.getD (lowerIndex (hiddenOracle 1150000) PRICE_POINTS).1.toNat 0 > 10000 then
        { found := true, exact := some true, price := none,
          min_price := some (refine_to_10k_window (hiddenOracle 1150000)
            (PRICE_POINTS.getD (lowerIndex (hiddenOracle 1150000) PRICE_POINTS).1.toNat 0)
            (PRICE_POINTS.getD (upperIndex (hiddenOracle 1150000) PRICE_POINTS).1.toNat 0)).min_price,
          max_price := some (refine_to_10k_window (hiddenOracle 1150000)
            (PRICE_POINTS.getD (lowerIndex (hiddenOracle 1150000) PRICE_POINTS).1.toNat 0)
            (PRICE_POINTS.getD (upperIndex (hiddenOracle 1150000) PRICE_POINTS).1.toNat 0)).max_price,
          bracket_width := some (refine_to_10k_window (hiddenOracle 1150000)
            (PRICE_POINTS.getD (lowerIndex (hiddenOracle 1150000) PRICE_POINTS).1.toNat 0)
            (PRICE_POINTS.getD (upperIndex (hiddenOracle 1150000) PRICE_POINTS).1.toNat 0)).bracket_width,
          queries_made := some ((upperIndex (hiddenOracle 1150000) PRICE_POINTS).2 +
            (refine_to_10k_window (hiddenOracle 1150000)
              (PRICE_POINTS.getD (lowerIndex (hiddenOracle 1150000) PRICE_POINTS).1.toNat 0)
              (PRICE_POINTS.getD (upperIndex (hiddenOracle 1150000) PRICE_POINTS).1.toNat 0)).queries_made),
          address := "a", suburb := "s" }
      else
        { found := true, exact := some false, price := none,
          min_price := some (PRICE_POINTS.getD (lowerIndex (hiddenOracle 1150000) PRICE_POINTS).1.toNat 0),
          max_price := some (PRICE_POINTS.getD (upperIndex (hiddenOracle 1150000) PRICE_POINTS).1.toNat 0),
          bracket_width := some (PRICE_POINTS.getD (upperIndex (hiddenOracle 1150000) PRICE_POINTS).1.toNat 0 -
            PRICE_POINTS.getD (lowerIndex (hiddenOracle 1150000) PRICE_POINTS).1.toNat 0),
          queries_made := some (upperIndex (hiddenOracle 1150000) PRICE_POINTS).2,
          address := "a", suburb := "s" } := by
  have h := discovery_driver_refinement (hiddenOracle 1150000) PRICE_POINTS true "a" "s" (by decide)
  simpa using h

/-- C5 (amended): when the existence check fails, the result is the not-found
dict carrying the diagnostic message (and no `queries_made` key), and the
local query counter stands at exactly 1 — a single oracle call was made. -/
theorem not_found_result (oracle : Int → Int → Bool) (pts : List Int)
    (find_exact : Bool) (addr sub : String)
    (hex : oracle (pts.getD 0 0) (pts.getD (pts.length - 1) 0) = false) :
    binary_search_price_range oracle pts find_exact addr sub =
      { found := false,
        message := some "Property not found in database or filters are incorrect",
        address := addr, suburb := sub } ∧
    binary_search_calls oracle pts find_exact = 1 := by
  constructor
  · simp only [binary_search_price_range, hex]
    rw [if_pos trivial]
  · simp only [binary_search_calls, hex]
    rw [if_pos trivial]

/-- C5 witness: the always-false oracle. -/
theorem not_found_result_witness :
    binary_search_price_range (fun _ _ => false) PRICE_POINTS false "a" "s" =
      { found := false,
        message := some "Property not found in database or filters are incorrect",
        address := "a", suburb := "s" } ∧
    binary_search_calls (fun _ _ => false) PRICE_POINTS false = 1 :=
  not_found_result (fun _ _ => false) PRICE_POINTS false "a" "s" rfl

/-- C5 counterexample: the not-found result does not carry the number of
oracle calls — its `queries_made` key is absent. -/
theorem not_found_lacks_call_count :
    (binary_search_price_range (fun _ _ => false) PRICE_POINTS false
      "79 Gerrale Street, Cronulla" "Cronulla").found = false ∧
    (binary_search_price_range (fun _ _ => false) PRICE_POINTS false
      "79 Gerrale Street, Cronulla" "Cronulla").message =
      some "Property not found in database or filters are incorrect" ∧
    (binary_search_price_range (fun _ _ => false) PRICE_POINTS false
      "79 Gerrale Street, Cronulla" "Cronulla").queries_made = none := by
  refine ⟨?_, ?_, ?_⟩ <;> (simp only [binary_search_price_range]; rw [if_pos trivial])

/-! Iteration counts of the index binary searches -/

theorem bsMin_succ (e : Nat) (h : 1 ≤ e) : bsMin e = bsMin ((e - 1) / 2) + 1 := by
  cases e with
  | zero => omega
  | succ e' => simp [bsMin]

theorem bsMax_succ (e : Nat) (h : 1 ≤ e) : bsMax e = bsMax (e / 2) + 1 := by
  cases e with
  | zero => omega
  | succ e' => simp [bsMax]

theorem bsMin_mono : ∀ {a b : Nat}, a ≤ b → bsMin a ≤ bsMin b := by
  intro a b h
  cases a with
  | zero => simp [bsMin]
  | succ a' =>
    cases b with
    | zero => omega
    | succ b' =>
      have h1 : bsMin (a' + 1) = bsMin (a' / 2) + 1 := by simp [bsMin]
      have h2 : bsMin (b' + 1) = bsMin (b' / 2) + 1 := by simp [bsMin]
      have h3 : bsMin (a' / 2) ≤ bsMin (b' / 2) := bsMin_mono (by omega)
      omega
termination_by a b _ => b
decreasing_by omega

theorem bsMax_mono : ∀ {a b : Nat}, a ≤ b → bsMax a ≤ bsMax b := by
  intro a b h
  cases a with
  | zero => simp [bsMax]
  | succ a' =>
    cases b with
    | zero => omega
    | succ b' =>
      have h1 : bsMax (a' + 1) = bsMax ((a' + 1) / 2) + 1 := by simp [bsMax]
      have h2 : bsMax (b' + 1) = bsMax ((b' + 1) / 2) + 1 := by simp [bsMax]
      have h3 : bsMax ((a' + 1) / 2) ≤ bsMax ((b' + 1) / 2) := bsMax_mono (by omega)
      omega
termination_by a b _ => b
decreasing_by omega

theorem bsMax_le_log : ∀ e : Nat, bsMax e ≤ Nat.log 2 e + 1 := by
  intro e
  induction e using Nat.strong_induction_on with
  | _ e ih =>
  rcases e with _ | _ | e
  · show bsMax 0 ≤ Nat.log 2 0 + 1
    have h0 : bsMax 0 = 0 := by simp [bsMax]
    omega
  · show bsMax 1 ≤ Nat.log 2 1 + 1
    have h1 : bsMax 1 = bsMax 0 + 1 := bsMax_succ 1 (by omega)
    have h0 : bsMax 0 = 0 := by simp [bsMax]
    omega
  · show bsMax (e + 2) ≤ Nat.log 2 (e + 2) + 1
    have h1 : bsMax (e + 2) = bsMax ((e + 2) / 2) + 1 := bsMax_succ (e + 2) (by omega)
    have h2 := ih ((e + 2) / 2) (by omega)
    have h3 : Nat.log 2 ((e + 2) / 2) = Nat.log 2 (e + 2) - 1 := Nat.log_div_base 2 (e + 2)
    have h4 : 0 < Nat.log 2 (e + 2) := Nat.log_pos (by norm_num) (by omega)
    omega

theorem log_le_bsMin : ∀ e : Nat, Nat.log 2 (e + 1) ≤ bsMin e := by
  intro e
  induction e using Nat.strong_induction_on with
  | _ e ih =>
  rcases e with _ | e
  · show Nat.log 2 1 ≤ bsMin 0
    simp [bsMin, Nat.log_one_right]
  · show Nat.log 2 (e + 2) ≤ bsMin (e + 1)
    have h1 : bsMin (e + 1) = bsMin (e / 2) + 1 := by
      rw [bsMin_succ (e + 1) (by omega)]
      norm_num
    have h2 := ih (e / 2) (by omega)
    have h3 : e / 2 + 1 = (e + 2) / 2 := by omega
    have h4 : Nat.log 2 ((e + 2) / 2) = Nat.log 2 (e + 2) - 1 := Nat.log_div_base 2 (e + 2)
    rw [h3] at h2
    omega

theorem clog2_le_log_succ (n : Nat) : Nat.clog 2 n ≤ Nat.log 2 n + 1 :=
  (Nat.le_pow_iff_clog_le (by norm_num)).1 (le_of_lt (Nat.lt_pow_succ_log_self (by norm_num) n))

/-- Upper bound on the query counter of `lowerLoop`: one call per halving. -/
theorem lowerLoop_count_le (f : Int → Bool) (lo hi best : Int) (q : Nat) :
    (lowerLoop f lo hi best q).2 ≤ q + bsMax (hi + 1 - lo).toNat := by
  by_cases hle : lo ≤ hi
  · rw [lowerLoop_step _ _ _ _ _ hle]
    have he : 1 ≤ (hi + 1 - lo).toNat := by omega
    have heq := bsMax_succ _ he
    split
    · have hsz : (hi + 1 - (Int.fdiv (lo + hi) 2 + 1)).toNat = (hi + 1 - lo).toNat / 2 := by
        simp only [fdiv2_eq]; omega
      have hrec := lowerLoop_count_le f (Int.fdiv (lo + hi) 2 + 1) hi (Int.fdiv (lo + hi) 2) (q + 1)
      rw [hsz] at hrec
      omega
    · have hsz : ((Int.fdiv (lo + hi) 2 - 1) + 1 - lo).toNat ≤ (hi + 1 - lo).toNat / 2 := by
        simp only [fdiv2_eq]; omega
      have hrec := lowerLoop_count_le f lo (Int.fdiv (lo + hi) 2 - 1) best (q + 1)
      have hm := bsMax_mono hsz
      omega
  · rw [lowerLoop_stop _ _ _ _ _ hle]
    show q ≤ q + _
    omega
termination_by (hi + 1 - lo).toNat
decreasing_by
  · simp only [fdiv2_eq]; omega
  · simp only [fdiv2_eq]; omega

/-- Lower bound on the query counter of `lowerLoop`. -/
theorem lowerLoop_count_ge (f : Int → Bool) (lo hi best : Int) (q : Nat) :
    q + bsMin (hi + 1 - lo).toNat ≤ (lowerLoop f lo hi best q).2 := by
  by_cases hle : lo ≤ hi
  · rw [lowerLoop_step _ _ _ _ _ hle]
    have he : 1 ≤ (hi + 1 - lo).toNat := by omega
    have heq := bsMin_succ _ he
    split
    · have hsz : ((hi + 1 - lo).toNat - 1) / 2 ≤ (hi + 1 - (Int.fdiv (lo + hi) 2 + 1)).toNat := by
        simp only [fdiv2_eq]; omega
      have hrec := lowerLoop_count_ge f (Int.fdiv (lo + hi) 2 + 1) hi (Int.fdiv (lo + hi) 2) (q + 1)
      have hm := bsMin_mono hsz
      omega
    · have hsz : ((hi + 1 - lo).toNat - 1) / 2 ≤ ((Int.fdiv (lo + hi) 2 - 1) + 1 - lo).toNat := by
        simp only [fdiv2_eq]; omega
      have hrec := lowerLoop_count_ge f lo (Int.fdiv (lo + hi) 2 - 1) best (q + 1)
      have hm := bsMin_mono hsz
      omega
  · rw [lowerLoop_stop _ _ _ _ _ hle]
    have hz : (hi + 1 - lo).toNat = 0 := by omega
    rw [hz]
    show q + bsMin 0 ≤ q
    simp [bsMin]
termination_by (hi + 1 - lo).toNat
decreasing_by
  · simp only [fdiv2_eq]; omega
  · simp only [fdiv2_eq]; omega

/-- Upper bound on the query counter of `upperLoop`. -/
theorem upperLoop_count_le (f : Int → Bool) (lo hi best : Int) (q : Nat) :
    (upperLoop f lo hi best q).2 ≤ q + bsMax (hi + 1 - lo).toNat := by
  by_cases hle : lo ≤ hi
  · rw [upperLoop_step _ _ _ _ _ hle]
    have he : 1 ≤ (hi + 1 - lo).toNat := by omega
    have heq := bsMax_succ _ he
    split
    · have hsz : ((Int.fdiv (lo + hi) 2 - 1) + 1 - lo).toNat ≤ (hi + 1 - lo).toNat / 2 := by
        simp only [fdiv2_eq]; omega
      have hrec := upperLoop_count_le f lo (Int.fdiv (lo + hi) 2 - 1) (Int.fdiv (lo + hi) 2) (q + 1)
      have hm := bsMax_mono hsz
      omega
    · have hsz : (hi + 1 - (Int.fdiv (lo + hi) 2 + 1)).toNat = (hi + 1 - lo).toNat / 2 := by
        simp only [fdiv2_eq]; omega
      have hrec := upperLoop_count_le f (Int.fdiv (lo + hi) 2 + 1) hi best (q + 1)
      rw [hsz] at hrec
      omega
  · rw [upperLoop_stop _ _ _ _ _ hle]
    show q ≤ q + _
    omega
termination_by (hi + 1 - lo).toNat
decreasing_by
  · simp only [fdiv2_eq]; omega
  · simp only [fdiv2_eq]; omega

/-- Lower bound on the query counter of `upperLoop`. -/
theorem upperLoop_count_ge (f : Int → Bool) (lo hi best : Int) (q : Nat) :
    q + bsMin (hi + 1 - lo).toNat ≤ (upperLoop f lo hi best q).2 := by
  by_cases hle : lo ≤ hi
  · rw [upperLoop_step _ _ _ _ _ hle]
    have he : 1 ≤ (hi + 1 - lo).toNat := by omega
    have heq := bsMin_succ _ he
    split
    · have hsz : ((hi + 1 - lo).toNat - 1) / 2 ≤ ((Int.fdiv (lo + hi) 2 - 1) + 1 - lo).toNat := by
        simp only [fdiv2_eq]; omega
      have hrec := upperLoop_count_ge f lo (Int.fdiv (lo + hi) 2 - 1) (Int.fdiv (lo + hi) 2) (q + 1)
      have hm := bsMin_mono hsz
      omega
    · have hsz : ((hi + 1 - lo).toNat - 1) / 2 ≤ (hi + 1 - (Int.fdiv (lo + hi) 2 + 1)).toNat := by
        simp only [fdiv2_eq]; omega
      have hrec := upperLoop_count_ge f (Int.fdiv (lo + hi) 2 + 1) hi best (q + 1)
      have hm := bsMin_mono hsz
      omega
  · rw [upperLoop_stop _ _ _ _ _ hle]
    have hz : (hi + 1 - lo).toNat = 0 := by omega
    rw [hz]
    show q + bsMin 0 ≤ q
    simp [bsMin]
termination_by (hi + 1 - lo).toNat
decreasing_by
  · simp only [fdiv2_eq]; omega
  · simp only [fdiv2_eq]; omega

/-- C6: for every oracle on which the existence check succeeds, the query
count reported by the (unrefined) bracket search is `1 + 2*ceil(log2 N)` up
to one per binary search (N the ladder length): it lies within
`[1 + 2*ceil(log2 N) - 2, 1 + 2*ceil(log2 N) + 2]`. -/
theorem bracket_search_query_count (oracle : Int → Int → Bool) (pts : List Int)
    (addr sub : String)
    (hex : oracle (pts.getD 0 0) (pts.getD (pts.length - 1) 0) = true) :
    ∃ q, (binary_search_price_range oracle pts false addr sub).queries_made = some q ∧
      1 + 2 * Nat.clog 2 pts.length ≤ q + 2 ∧
      q ≤ (1 + 2 * Nat.clog 2 pts.length) + 2 := by
  rw [binary_search_found_eq _ _ _ _ _ hex]
  have efr : (foundResult oracle pts false addr sub).queries_made =
      some (upperIndex oracle pts).2 := by
    simp [foundResult]
  have hsz : (((pts.length : Int) - 1) + 1 - 0).toNat = pts.length := by omega
  have c1le : (lowerIndex oracle pts).2 ≤ 1 + bsMax pts.length := by
    simp only [lowerIndex]
    have h := lowerLoop_count_le
      (fun i => oracle (pts.getD i.toNat 0) (pts.getD (pts.length - 1) 0))
      0 ((pts.length : Int) - 1) 0 1
    rw [hsz] at h
    exact h
  have c1ge : 1 + bsMin pts.length ≤ (lowerIndex oracle pts).2 := by
    simp only [lowerIndex]
    have h := lowerLoop_count_ge
      (fun i => oracle (pts.getD i.toNat 0) (pts.getD (pts.length - 1) 0))
      0 ((pts.length : Int) - 1) 0 1
    rw [hsz] at h
    exact h
  have c2le : (upperIndex oracle pts).2 ≤ (lowerIndex oracle pts).2 + bsMax pts.length := by
    simp only [upperIndex]
    have h := upperLoop_count_le
      (fun i => oracle (pts.getD 0 0) (pts.getD i.toNat 0))
      0 ((pts.length : Int) - 1) ((pts.length : Int) - 1) (lowerIndex oracle pts).2
    rw [hsz] at h
    exact h
  have c2ge : (lowerIndex oracle pts).2 + bsMin pts.length ≤ (upperIndex oracle pts).2 := by
    simp only [upperIndex]
    have h := upperLoop_count_ge
      (fun i => oracle (pts.getD 0 0) (pts.getD i.toNat 0))
      0 ((pts.length : Int) - 1) ((pts.length : Int) - 1) (lowerIndex oracle pts).2
    rw [hsz] at h
    exact h
  have b1 := bsMax_le_log pts.length
  have b2 := log_le_bsMin pts.length
  have b3 : Nat.log 2 pts.length ≤ Nat.log 2 (pts.length + 1) :=
    Nat.log_mono_right (by omega)
  have b4 := Nat.log_le_clog 2 pts.length
  have b5 := clog2_le_log_succ pts.length
  exact ⟨(upperIndex oracle pts).2, efr, by omega, by omega⟩

/-- C6 witness at the 39-point ladder with the hidden price 1,150,000. -/
theorem bracket_search_query_count_witness :
    ∃ q, (binary_search_price_range (hiddenOracle 1150000) PRICE_POINTS false
        "a" "s").queries_made = some q ∧
      1 + 2 * Nat.clog 2 PRICE_POINTS.length ≤ q + 2 ∧
      q ≤ (1 + 2 * Nat.clog 2 PRICE_POINTS.length) + 2 :=
  bracket_search_query_count (hiddenOracle 1150000) PRICE_POINTS "a" "s" (by decide)

/-! Oracle client: page-scan characterisation -/

/-- The page scan returns true exactly when some page holds a matching
listing and no earlier page is the empty-page break signal. -/
theorem scanPages_true_iff (tn : String) (l : List PageResponse) :
    scanPages tn l = true ↔
      ∃ i : Nat, ∃ r, l[i]? = some r ∧ pageMatches tn r = true ∧
        ∀ j : Nat, j < i → ∀ r', l[j]? = some r' → isEmptyOk r' = false := by
  induction l with
  | nil => simp [scanPages]
  | cons a rest ih =>
    cases a with
    | fault =>
      rw [show scanPages tn (PageResponse.fault :: rest) = scanPages tn rest from rfl, ih]
      constructor
      · rintro ⟨i, r, hget, hm, hall⟩
        refine ⟨i + 1, r, by simpa using hget, hm, fun j hj r' hr' => ?_⟩
        cases j with
        | zero =>
          simp at hr'
          rw [← hr']
          rfl
        | succ j' =>
          exact hall j' (by omega) r' (by simpa using hr')
      · rintro ⟨i, r, hget, hm, hall⟩
        cases i with
        | zero =>
          simp at hget
          rw [← hget] at hm
          simp [pageMatches] at hm
        | succ i' =>
          refine ⟨i', r, by simpa using hget, hm, fun j hj r' hr' => ?_⟩
          exact hall (j + 1) (by omega) r' (by simpa using hr')
    | ok listings =>
      by_cases hemp : listings.isEmpty
      · have hnil : listings = [] := List.isEmpty_iff.1 hemp
        subst hnil
        rw [show scanPages tn (PageResponse.ok [] :: rest) = false from rfl]
        simp only [Bool.false_eq_true, false_iff]
        rintro ⟨i, r, hget, hm, hall⟩
        cases i with
        | zero =>
          simp at hget
          rw [← hget] at hm
          simp [pageMatches] at hm
        | succ i' =>
          have := hall 0 (by omega) (PageResponse.ok []) (by simp)
          simp [isEmptyOk] at this
      · by_cases hany : listings.any (matchListing tn) = true
        · have hs : scanPages tn (PageResponse.ok listings :: rest) = true := by
            simp [scanPages, hemp, hany]
          rw [hs]
          simp only [true_iff]
          exact ⟨0, PageResponse.ok listings, by simp, by simpa [pageMatches] using hany,
            fun j hj r' hr' => absurd hj (by omega)⟩
        · have hs : scanPages tn (PageResponse.ok listings :: rest) = scanPages tn rest := by
            simp [scanPages, hemp, hany]
          have hfalse : isEmptyOk (PageResponse.ok listings) = false := by
            cases listings with
            | nil => simp at hemp
            | cons x xs => rfl
          rw [hs, ih]
          constructor
          · rintro ⟨i, r, hget, hm, hall⟩
            refine ⟨i + 1, r, by simpa using hget, hm, fun j hj r' hr' => ?_⟩
            cases j with
            | zero =>
              simp at hr'
              rw [← hr']
              exact hfalse
            | succ j' =>
              exact hall j' (by omega) r' (by simpa using hr')
          · rintro ⟨i, r, hget, hm, hall⟩
            cases i with
            | zero =>
              simp at hget
              rw [← hget] at hm
              simp only [pageMatches] at hm
              exact absurd hm (by simpa using hany)
            | succ i' =>
              refine ⟨i', r, by simpa using hget, hm, fun j hj r' hr' => ?_⟩
              exact hall (j + 1) (by omega) r' (by simpa using hr')

/-- C2: the oracle client returns true iff some page within the
`ceil(max_results / 25)`-page budget matches the normalised target and no
earlier page is an empty (break) page; otherwise — pages exhausted or the
break fired first — it returns false. -/
theorem oracle_client_match_iff (target : String) (pages : Nat → PageResponse)
    (max_results : Nat) :
    check_property_in_price_range target pages max_results = true ↔
      ∃ i, i < pagesToCheck max_results ∧
        pageMatches (target.toLower.trim) (pages i) = true ∧
        ∀ j, j < i → isEmptyOk (pages j) = false := by
  rw [check_property_in_price_range, scanPages_true_iff]
  constructor
  · rintro ⟨i, r, hget, hm, hall⟩
    have hi : i < pagesToCheck max_results := by
      by_contra hge
      rw [List.getElem?_map, List.getElem?_eq_none (by simpa using Nat.le_of_not_lt hge)] at hget
      simp at hget
    rw [List.getElem?_map, List.getElem?_range hi] at hget
    simp only [Option.map_some'] at hget
    obtain rfl : pages i = r := Option.some.inj hget
    refine ⟨i, hi, hm, fun j hj => ?_⟩
    apply hall j hj (pages j)
    rw [List.getElem?_map, List.getElem?_range (lt_trans hj hi)]
    rfl
  · rintro ⟨i, hi, hm, hall⟩
    refine ⟨i, pages i, ?_, hm, fun j hj r' hr' => ?_⟩
    · rw [List.getElem?_map, List.getElem?_range hi]
      rfl
    · rw [List.getElem?_map, List.getElem?_range (lt_trans hj hi)] at hr'
      simp only [Option.map_some'] at hr'
      rw [← Option.some.inj hr']
      exact hall j hj

/-- C2 witness: a concrete two-page transport where page 1 matches. -/
theorem oracle_client_match_iff_witness :
    check_property_in_price_range " 79 Gerrale Street"
        (fun k => if k = 1 then PageResponse.ok [some "79 GERRALE STREET, CRONULLA"]
          else PageResponse.ok [some "1 Other Road"]) 50 = true ↔
      ∃ i, i < pagesToCheck 50 ∧
        pageMatches (" 79 Gerrale Street".toLower.trim)
          ((fun k => if k = 1 then PageResponse.ok [some "79 GERRALE STREET, CRONULLA"]
            else PageResponse.ok [some "1 Other Road"]) i) = true ∧
        ∀ j, j < i → isEmptyOk
          ((fun k => if k = 1 then PageResponse.ok [some "79 GERRALE STREET, CRONULLA"]
            else PageResponse.ok [some "1 Other Road"]) j) = false :=
  oracle_client_match_iff " 79 Gerrale Street"
    (fun k => if k = 1 then PageResponse.ok [some "79 GERRALE STREET, CRONULLA"]
      else PageResponse.ok [some "1 Other Road"]) 50

/-- C9: transport faults are absorbed locally — a fault page is skipped and
the scan of the remaining pages is unchanged — and a degraded call still
returns a boolean, `false` whenever no page ever matches. -/
theorem oracle_client_degrades (target : String) (pages : Nat → PageResponse)
    (max_results : Nat) (tn : String) (l1 l2 : List PageResponse) :
    scanPages tn (l1 ++ PageResponse.fault :: l2) = scanPages tn (l1 ++ l2) ∧
    ((∀ k, pageMatches (target.toLower.trim) (pages k) = false) →
      check_property_in_price_range target pages max_results = false) := by
  constructor
  · induction l1 with
    | nil => rfl
    | cons a rest ih =>
      cases a with
      | fault => simpa [scanPages] using ih
      | ok ls => simp [scanPages, ih]
  · intro hall
    by_contra hne
    have ht : check_property_in_price_range target pages max_results = true := by
      revert hne
      cases check_property_in_price_range target pages max_results <;> simp
    rw [check_property_in_price_range, scanPages_true_iff] at ht
    obtain ⟨i, r, hget, hm, _⟩ := ht
    have hi : i < pagesToCheck max_results := by
      by_contra hge
      rw [List.getElem?_map, List.getElem?_eq_none (by simpa using Nat.le_of_not_lt hge)] at hget
      simp at hget
    rw [List.getElem?_map, List.getElem?_range hi] at hget
    simp only [Option.map_some'] at hget
    rw [← Option.some.inj hget] at hm
    rw [hall i] at hm
    simp at hm

/-- C9 witness: an all-fault transport. -/
theorem oracle_client_degrades_witness :
    scanPages "x" ([PageResponse.ok [some "a"]] ++ PageResponse.fault :: [PageResponse.fault]) =
      scanPages "x" ([PageResponse.ok [some "a"]] ++ [PageResponse.fault]) ∧
    check_property_in_price_range "79 Gerrale Street" (fun _ => PageResponse.fault) 500 = false :=
  ⟨(oracle_client_degrades "79 Gerrale Street" (fun _ => PageResponse.fault) 500 "x"
      [PageResponse.ok [some "a"]] [PageResponse.fault]).1,
   (oracle_client_degrades "79 Gerrale Street" (fun _ => PageResponse.fault) 500 "x"
      [PageResponse.ok [some "a"]] [PageResponse.fault]).2 (fun _ => rfl)⟩

/-- C8: the batch loop produces one result per input row, in input order —
a not-found result for one row never stops the remaining rows — and the
summary statistics satisfy `found_count ≤ N` and
`total_queries = sum of per-result counts`. -/
theorem batch_in_order (oracleOf : BatchRow → Int → Int → Bool) (pts : List Int)
    (find_exact : Bool) (sub : String) (rows : List BatchRow) :
    (runBatch oracleOf pts find_exact sub rows).length = rows.length ∧
    (∀ i : Nat, (runBatch oracleOf pts find_exact sub rows)[i]? =
      (rows[i]?).map (fun row =>
        binary_search_price_range (oracleOf row) pts find_exact row.address sub)) ∧
    found_count (runBatch oracleOf pts find_exact sub rows) ≤ rows.length ∧
    total_queries (runBatch oracleOf pts find_exact sub rows) =
      ((runBatch oracleOf pts find_exact sub rows).map
        (fun r => r.queries_made.getD 0)).sum := by
  refine ⟨by simp [runBatch], fun i => by simp [runBatch, List.getElem?_map], ?_, rfl⟩
  calc found_count (runBatch oracleOf pts find_exact sub rows)
      ≤ (runBatch oracleOf pts find_exact sub rows).length := List.countP_le_length _
    _ = rows.length := by simp [runBatch]
